import Mathlib

/-!
Verification of the catalog / storage-lifecycle manager (`SmManager`,
`src/rmdb/src/system/sm_manager.cpp`).

The manager's ambient state (`db_`, `fhs_`, `ihs_`, the process working
directory and the files it manipulates) is embedded as an explicit
`SmState`; each member function becomes a Lean function on `SmState`.
`std::map` members are embedded as association lists together with
operations mirroring the exact `std::map` primitives the source uses
(`operator[]`, `emplace`, `erase`, assignment).  A C++ exception becomes
an `err` field carried next to the (already mutated) state, matching the
fact that mutations performed before a throw persist.  Observable calls
into the external record/index stores are recorded in an effect trace.
-/


/-- Association-list lookup: the value of the first entry with the given
key, mirroring `std::map::find`/`count` as used by the source. -/
def lookupKey {κ α : Type} [DecidableEq κ] : List (κ × α) → κ → Option α
  | [], _ => none
  | e :: rest, k => if e.1 = k then some e.2 else lookupKey rest k

/-- `std::map::erase(key)`: remove the entry with the given key (the
first matching entry in the association list). -/
def eraseKey {κ α : Type} [DecidableEq κ] : List (κ × α) → κ → List (κ × α)
  | [], _ => []
  | e :: rest, k => if e.1 = k then rest else e :: eraseKey rest k

/-- `map[key] = value`: overwrite the entry if present, otherwise insert. -/
def setKey {κ α : Type} [DecidableEq κ] : List (κ × α) → κ → α → List (κ × α)
  | [], k, v => [(k, v)]
  | e :: rest, k, v => if e.1 = k then (k, v) :: rest else e :: setKey rest k v

/-- `std::map::emplace`: insert only when the key is absent (the source
relies on this: an `emplace` on a present key silently does nothing). -/
def emplaceKey {κ α : Type} [DecidableEq κ] (l : List (κ × α)) (k : κ) (v : α) :
    List (κ × α) :=
  match lookupKey l k with
  | some _ => l
  | none => l ++ [(k, v)]

/-- The insertion half of `std::map::operator[]`: reading `m[k]` inserts a
default-constructed value when the key is absent. -/
def touchKey {κ α : Type} [DecidableEq κ] (l : List (κ × α)) (k : κ) (d : α) :
    List (κ × α) :=
  match lookupKey l k with
  | some _ => l
  | none => l ++ [(k, d)]

/-- The value observed by `std::map::operator[]`: the stored value if the
key is present, else the default-constructed one. -/
def getValD {κ α : Type} [DecidableEq κ] (l : List (κ × α)) (k : κ) (d : α) : α :=
  (lookupKey l k).getD d

/-- `m[k]` followed by a mutation of the obtained reference: modify the
entry in place, default-constructing it first when absent. -/
def mapModify {κ α : Type} [DecidableEq κ] : List (κ × α) → κ → α → (α → α) → List (κ × α)
  | [], k, d, f => [(k, f d)]
  | e :: rest, k, d, f => if e.1 = k then (k, f e.2) :: rest else e :: mapModify rest k d f

/-- Append an element when it is not already present (used for the sets
of physical files owned by the external stores). -/
def addNew (l : List String) (x : String) : List String :=
  if x ∈ l then l else l ++ [x]

/-- Number of occurrences of `k` in a list (used to state the "exactly
one handle" catalog invariants). -/
def countK {κ : Type} [DecidableEq κ] (l : List κ) (k : κ) : Nat :=
  (l.filter (fun x => decide (x = k))).length

/-- The keys of an association list, in order. -/
def keyList {κ α : Type} (l : List (κ × α)) : List κ := l.map Prod.fst

/-- A column definition as passed to `create_table` (`ColDef` in
`common.h`): name, type tag and byte length.  The scalar type tag is an
abstract `Nat`; the byte length is the C++ `int`. -/
structure ColDef where
  name : String
  type : Nat
  len : Int
  deriving DecidableEq

/-- `ColMeta` (`system/sm_meta.h`): the per-column catalog record built
by `SmManager::create_table`. -/
structure ColMeta where
  tab_name : String
  name : String
  type : Nat
  len : Int
  offset : Int
  index : Bool
  deriving DecidableEq

/-- `IndexMeta` (`system/sm_meta.h`): owning table, total key length,
column count and the ordered participating columns. -/
structure IndexMeta where
  tab_name : String
  col_tot_len : Int
  col_num : Int
  cols : List ColMeta
  deriving DecidableEq

/-- `TabMeta` (`system/sm_meta.h`): a table's name, ordered columns and
index list. -/
structure TabMeta where
  name : String
  cols : List ColMeta
  indexes : List IndexMeta
  deriving DecidableEq

/-- `DbMeta` (`system/sm_meta.h`): database name and the map from table
name to `TabMeta` (`tabs_`). -/
structure DbMeta where
  name : String
  tabs : List (String × TabMeta)
  deriving DecidableEq

/-- The `DbMeta` left behind by `close_db` (`name_.clear()` and
`tabs_.clear()`), also the default-constructed value. -/
def emptyDb : DbMeta := ⟨"", []⟩

/-- Modelled from the spec: `DB_META_NAME` (`common/config.h`, not under
`src/`) — the fixed metadata file name inside a database directory. -/
def DB_META_NAME : String := "db.meta"

/-- Modelled from the spec: `IxManager::get_index_name(tab, col_names)`
(`index/ix.h`, not under `src/`) — the deterministic, order-sensitive
index identity derived from the table name and the ordered column
names. -/
def get_index_name (tab : String) (colNames : List String) : String :=
  tab ++ String.join (colNames.map (fun c => "_" ++ c)) ++ ".idx"

/-- Modelled from the spec: the `IxManager::get_index_name` overload
taking column metadata — it projects the columns to their names. -/
def get_index_name_cols (tab : String) (cols : List ColMeta) : String :=
  get_index_name tab (cols.map ColMeta.name)

/-- Modelled from the spec: `DbMeta::get_table` (`system/sm_meta.h`, not
under `src/`) — look a table up by name (`none` embeds the
`TableNotFoundError` throw at the call sites below). -/
def get_table (d : DbMeta) (n : String) : Option TabMeta :=
  lookupKey d.tabs n

/-- Modelled from the spec: `DbMeta::is_table` (`system/sm_meta.h`) — a
table exists iff its name is a key of `tabs_`. -/
def is_table (d : DbMeta) (n : String) : Bool :=
  (lookupKey d.tabs n).isSome

/-- Modelled from the spec: `TabMeta::get_col` (`system/sm_meta.h`) —
find a column by name (`none` embeds the column-not-found throw). -/
def get_col (tm : TabMeta) (n : String) : Option ColMeta :=
  tm.cols.find? (fun c => decide (c.name = n))

/-- Modelled from the spec: `TabMeta::get_index_meta(col_names)`
(`system/sm_meta.h`) — the first index whose ordered column names equal
the given list (`none` embeds the `IndexNotFoundError` throw). -/
def get_index_meta (tm : TabMeta) (ns : List String) : Option IndexMeta :=
  tm.indexes.find? (fun im => decide (im.cols.map ColMeta.name = ns))

/-- `indexes.erase(get_index_meta(...))`: remove the first index whose
ordered column names equal the given list. -/
def eraseIndexOn : List IndexMeta → List String → List IndexMeta
  | [], _ => []
  | im :: rest, ns =>
    if im.cols.map ColMeta.name = ns then rest else im :: eraseIndexOn rest ns

/-- The typed error conditions thrown by the source (`errors.h`). -/
inductive SmError where
  | databaseExists : String → SmError
  | databaseNotFound : String → SmError
  | unixError : SmError
  | tableExists : String → SmError
  | tableNotFound : String → SmError
  | indexExists : String → List String → SmError
  | indexNotFound : String → List String → SmError
  | columnNotFound : String → String → SmError
  deriving DecidableEq

/-- Observable calls into the filesystem and the external record/index
stores, recorded in order. -/
inductive Effect where
  | madeDir : List String → Effect
  | wroteMeta : List String → DbMeta → Effect
  | createdLog : List String → Effect
  | loggedError : Effect
  | createdRecFile : String → Int → Effect
  | openedRecFile : String → Option Nat → Effect
  | closedRecFile : Option Nat → Effect
  | destroyedRecFile : String → Effect
  | createdIdxFile : String → Effect
  | openedIdxFile : String → Option Nat → Effect
  | closedIdxFile : Option Nat → Effect
  | destroyedIdxFile : String → Effect
  deriving DecidableEq

/-- Whether an effect is a metadata-file write (a `flush_meta`). -/
def Effect.isMetaWrite : Effect → Bool
  | Effect.wroteMeta _ _ => true
  | _ => false

/-- The ambient state of `SmManager` together with the parts of the
outside world it observes: the process working directory (`cwd`, as a
path of components), the existing directories, the metadata files on
disk (path ↦ parsed contents), the physical record/index files of the
currently entered database directory, the in-memory schema `db_`, the
two handle registries `fhs_`/`ihs_` (a `none` value is a
default-constructed null `unique_ptr`), a counter supplying fresh open
handles, and the effect trace. -/
structure SmState where
  cwd : List String
  dirs : List (List String)
  metaDisk : List (List String × DbMeta)
  recordFiles : List String
  indexFiles : List String
  db : DbMeta
  fhs : List (String × Option Nat)
  ihs : List (String × Option Nat)
  hcounter : Nat
  trace : List Effect
  deriving DecidableEq

/-- The outcome of a member function: the state after all performed
mutations, plus the exception it escaped with, if any. -/
structure SmResult where
  state : SmState
  err : Option SmError
  deriving DecidableEq

/-- `SmManager::is_dir` (line 37): `stat` succeeds and names a directory. -/
def is_dir (s : SmState) (name : String) : Bool :=
  decide ((s.cwd ++ [name]) ∈ s.dirs)

/-- `SmManager::flush_meta` (line 128): truncate and rewrite the
metadata file, named `DB_META_NAME` relative to the current working
directory. -/
def flush_meta (s : SmState) : SmState :=
  { s with
    metaDisk := setKey s.metaDisk (s.cwd ++ [DB_META_NAME]) s.db,
    trace := s.trace ++ [Effect.wroteMeta (s.cwd ++ [DB_META_NAME]) s.db] }

/-- `SmManager::create_db` (line 46): reject an existing directory, make
the directory, enter it, write an empty-schema metadata file, create the
log file, and `chdir("..")` back out (so `cwd` is restored). -/
def create_db (s : SmState) (name : String) : SmResult :=
  if is_dir s name then ⟨s, some (SmError.databaseExists name)⟩
  else
    let p := s.cwd ++ [name]
    let s1 : SmState := { s with dirs := s.dirs ++ [p], trace := s.trace ++ [Effect.madeDir p] }
    let s2 : SmState := { s1 with cwd := p }
    let newdb : DbMeta := ⟨name, []⟩
    let s3 : SmState :=
      { s2 with
        metaDisk := setKey s2.metaDisk (p ++ [DB_META_NAME]) newdb,
        trace := s2.trace ++ [Effect.wroteMeta (p ++ [DB_META_NAME]) newdb] }
    let s4 : SmState := { s3 with trace := s3.trace ++ [Effect.createdLog p] }
    ⟨{ s4 with cwd := s.cwd }, none⟩

/-- `SmManager::drop_db` (line 83): reject a missing directory, else
recursively remove it. -/
def drop_db (s : SmState) (name : String) : SmResult :=
  if is_dir s name = false then ⟨s, some (SmError.databaseNotFound name)⟩
  else ⟨{ s with dirs := s.dirs.erase (s.cwd ++ [name]) }, none⟩

/-- The index-loading inner loop of `open_db` (lines 114–118): open and
`emplace` every index of a table; `Except.error` carries the state at the
point an `open_index` on a missing file threw. -/
def openIdxLoop (tname : String) : List IndexMeta → SmState → Except SmState SmState
  | [], s => Except.ok s
  | im :: rest, s =>
    let iname := get_index_name tname (im.cols.map ColMeta.name)
    if iname ∈ s.indexFiles then
      let h := some s.hcounter
      let s1 : SmState :=
        { s with
          hcounter := s.hcounter + 1,
          trace := s.trace ++ [Effect.openedIdxFile iname h],
          ihs := emplaceKey s.ihs iname h }
      openIdxLoop tname rest s1
    else Except.error s

/-- The table-loading loop of `open_db` (lines 109–119): for every table
of the loaded schema, open its record file (`fhs_[name] = open_file`)
and then its indexes. -/
def openTabLoop : List (String × TabMeta) → SmState → Except SmState SmState
  | [], s => Except.ok s
  | (tname, tm) :: rest, s =>
    if tname ∈ s.recordFiles then
      let h := some s.hcounter
      let s1 : SmState :=
        { s with
          hcounter := s.hcounter + 1,
          trace := s.trace ++ [Effect.openedRecFile tname h],
          fhs := setKey s.fhs tname h }
      match openIdxLoop tname tm.indexes s1 with
      | Except.ok s2 => openTabLoop rest s2
      | Except.error s2 => Except.error s2
    else Except.error s

/-- `SmManager::open_db` (line 98): the whole body sits in a
`try`/`catch (std::exception&)` that prints the error and returns, so no
error ever escapes to the caller.  A failing `chdir` (missing directory)
throws `UnixError` into the catch; a missing metadata file leaves `db_`
unchanged (a failed `ifstream` extraction); then every table and index of
`db_` is opened and registered, any throw landing in the catch. -/
def open_db (s : SmState) (name : String) : SmResult :=
  if is_dir s name = false then
    ⟨{ s with trace := s.trace ++ [Effect.loggedError] }, none⟩
  else
    let s1 : SmState := { s with cwd := s.cwd ++ [name] }
    let s2 : SmState :=
      match lookupKey s1.metaDisk (s1.cwd ++ [DB_META_NAME]) with
      | some m => { s1 with db := m }
      | none => s1
    match openTabLoop s2.db.tabs s2 with
    | Except.ok s3 => ⟨s3, none⟩
    | Except.error s3 => ⟨{ s3 with trace := s3.trace ++ [Effect.loggedError] }, none⟩

/-- `SmManager::close_db` (line 137): flush the metadata, close every
registered record and index handle, then clear the schema and both
registries. -/
def close_db (s : SmState) : SmState :=
  let s1 := flush_meta s
  let s2 : SmState :=
    { s1 with
      trace := s1.trace ++ s1.fhs.map (fun e => Effect.closedRecFile e.2)
        ++ s1.ihs.map (fun e => Effect.closedIdxFile e.2) }
  { s2 with db := emptyDb, fhs := [], ihs := [] }

/-- Modelled from the spec: `coltype2str` (not under `src/`) — render a
scalar type tag for `desc_table`. -/
def coltype2str (t : Nat) : String :=
  if t = 0 then "INT" else if t = 1 then "FLOAT" else "STRING"

/-- `SmManager::desc_table` (line 183): the printed field rows — column
name, rendered type and `"YES"`/`"NO"` for the indexed flag, in column
declaration order; throws `TableNotFoundError` via `get_table`. -/
def desc_table (s : SmState) (tab : String) : Except SmError (List (List String)) :=
  match get_table s.db tab with
  | none => Except.error (SmError.tableNotFound tab)
  | some tm =>
    Except.ok (tm.cols.map (fun c =>
      [c.name, coltype2str c.type, if c.index then "YES" else "NO"]))

/-- The column loop of `create_table` (lines 215–227): build the
`ColMeta` list from the definitions, threading `curr_offset`; returns the
built columns and the final `curr_offset` (which becomes `record_size`). -/
def colLoop (tab : String) : List ColDef → Int → (List ColMeta × Int)
  | [], curr => ([], curr)
  | d :: rest, curr =>
    let col : ColMeta := ⟨tab, d.name, d.type, d.len, curr, false⟩
    let r := colLoop tab rest (curr + d.len)
    (col :: r.1, r.2)

/-- Sum of the byte lengths of a column list. -/
def sumColLens : List ColMeta → Int
  | [] => 0
  | c :: rest => c.len + sumColLens rest

/-- `SmManager::create_table` (line 208): reject an existing name, build
the `TabMeta` with cumulative offsets, create the record file sized to
the final offset, insert the table into `db_.tabs_`, open and `emplace`
the record-file handle, and `flush_meta`. -/
def create_table (s : SmState) (tab : String) (defs : List ColDef) : SmResult :=
  if is_table s.db tab then ⟨s, some (SmError.tableExists tab)⟩
  else
    let cols := (colLoop tab defs 0).1
    let record_size := (colLoop tab defs 0).2
    let tm : TabMeta := ⟨tab, cols, []⟩
    let s1 : SmState :=
      { s with
        recordFiles := addNew s.recordFiles tab,
        trace := s.trace ++ [Effect.createdRecFile tab record_size] }
    let s2 : SmState := { s1 with db := ⟨s1.db.name, setKey s1.db.tabs tab tm⟩ }
    let h := some s2.hcounter
    let s3 : SmState :=
      { s2 with
        hcounter := s2.hcounter + 1,
        trace := s2.trace ++ [Effect.openedRecFile tab h],
        fhs := emplaceKey s2.fhs tab h }
    ⟨flush_meta s3, none⟩

/-- The index-destruction loop of `drop_table` (lines 255–266): for each
index of the table, read its handle via `ihs_[name]` (`operator[]`),
close it, destroy its file, and erase the registry entry. -/
def dropTableIdxLoop (tab : String) : List IndexMeta → SmState → SmState
  | [], s => s
  | im :: rest, s =>
    let iname := get_index_name tab (im.cols.map ColMeta.name)
    let h := getValD s.ihs iname none
    let s1 : SmState :=
      { s with ihs := touchKey s.ihs iname none,
               trace := s.trace ++ [Effect.closedIdxFile h] }
    let s2 : SmState :=
      { s1 with indexFiles := s1.indexFiles.erase iname,
                trace := s1.trace ++ [Effect.destroyedIdxFile iname] }
    let s3 : SmState := { s2 with ihs := eraseKey s2.ihs iname }
    dropTableIdxLoop tab rest s3

/-- `SmManager::drop_table` (line 245): reject a missing name, close the
record-file handle (read through `fhs_[name]`), destroy the record file,
run the index-destruction loop, then erase the table from `db_.tabs_`
and its handle from `fhs_`.  Note: no `flush_meta`. -/
def drop_table (s : SmState) (tab : String) : SmResult :=
  if is_table s.db tab then
    let h := getValD s.fhs tab none
    let s1 : SmState :=
      { s with fhs := touchKey s.fhs tab none,
               trace := s.trace ++ [Effect.closedRecFile h] }
    let s2 : SmState :=
      { s1 with recordFiles := s1.recordFiles.erase tab,
                trace := s1.trace ++ [Effect.destroyedRecFile tab] }
    let tm := (lookupKey s2.db.tabs tab).getD ⟨"", [], []⟩
    let s3 := dropTableIdxLoop tab tm.indexes s2
    ⟨{ s3 with db := ⟨s3.db.name, eraseKey s3.db.tabs tab⟩,
               fhs := eraseKey s3.fhs tab }, none⟩
  else ⟨s, some (SmError.tableNotFound tab)⟩

/-- The column-resolution loop of `create_index` (lines 284–289): for
each name, `get_table(tab).get_col(name)`, with the first throw
propagating (so nothing is resolved for an empty name list, and the
table's existence is then never checked). -/
def resolveCols (d : DbMeta) (t : String) : List String → Except SmError (List ColMeta)
  | [] => Except.ok []
  | n :: rest =>
    match get_table d t with
    | none => Except.error (SmError.tableNotFound t)
    | some tm =>
      match get_col tm n with
      | none => Except.error (SmError.columnNotFound t n)
      | some c =>
        match resolveCols d t rest with
        | Except.error e => Except.error e
        | Except.ok cs => Except.ok (c :: cs)

/-- `SmManager::create_index` (line 278): reject when the physical index
file already exists (`ix_manager_->exists`), resolve the column names,
create and open the index file, `emplace` the handle, build the
`IndexMeta` (total key length = sum of the column lengths), and append
it to `db_.tabs_[tab].indexes` (an `operator[]` access that
default-constructs the table entry when absent).  The participating
columns' `index` flags are not modified. -/
def create_index (s : SmState) (tab : String) (colNames : List String) : SmResult :=
  let iname := get_index_name tab colNames
  if iname ∈ s.indexFiles then ⟨s, some (SmError.indexExists tab colNames)⟩
  else
    match resolveCols s.db tab colNames with
    | Except.error e => ⟨s, some e⟩
    | Except.ok index_columns =>
      let fname := get_index_name_cols tab index_columns
      let s1 : SmState :=
        { s with indexFiles := addNew s.indexFiles fname,
                 trace := s.trace ++ [Effect.createdIdxFile fname] }
      let h := some s1.hcounter
      let s2 : SmState :=
        { s1 with hcounter := s1.hcounter + 1,
                  trace := s1.trace ++ [Effect.openedIdxFile fname h] }
      let s3 : SmState := { s2 with ihs := emplaceKey s2.ihs iname h }
      let im : IndexMeta :=
        ⟨tab, sumColLens index_columns, (index_columns.length : Int), index_columns⟩
      ⟨{ s3 with
          db := ⟨s3.db.name,
            mapModify s3.db.tabs tab ⟨"", [], []⟩
              (fun t => ⟨t.name, t.cols, t.indexes ++ [im]⟩)⟩ }, none⟩

/-- `SmManager::drop_index` by column names (line 313): read the handle
through `ihs_[name]` (`operator[]` — inserting a null handle when the
identity is unregistered), close it, destroy the index file, erase the
registry entry, then look the `IndexMeta` up (throwing
`TableNotFoundError`/`IndexNotFoundError` after those effects) and erase
it from the table's index list. -/
def drop_index_names (s : SmState) (tab : String) (colNames : List String) : SmResult :=
  let iname := get_index_name tab colNames
  let h := getValD s.ihs iname none
  let s1 : SmState :=
    { s with ihs := touchKey s.ihs iname none,
             trace := s.trace ++ [Effect.closedIdxFile h] }
  let s2 : SmState :=
    { s1 with indexFiles := s1.indexFiles.erase iname,
              trace := s1.trace ++ [Effect.destroyedIdxFile iname] }
  let s3 : SmState := { s2 with ihs := eraseKey s2.ihs iname }
  match get_table s3.db tab with
  | none => ⟨s3, some (SmError.tableNotFound tab)⟩
  | some tm =>
    match get_index_meta tm colNames with
    | none => ⟨s3, some (SmError.indexNotFound tab colNames)⟩
    | some _ =>
      ⟨{ s3 with
          db := ⟨s3.db.name,
            mapModify s3.db.tabs tab ⟨"", [], []⟩
              (fun t => ⟨t.name, t.cols, eraseIndexOn t.indexes colNames⟩)⟩ }, none⟩

/-- `SmManager::drop_index` by column metadata (line 336): the same
steps, deriving the identity and the name list from the `ColMeta`s. -/
def drop_index_cols (s : SmState) (tab : String) (cols : List ColMeta) : SmResult :=
  let iname := get_index_name_cols tab cols
  let h := getValD s.ihs iname none
  let s1 : SmState :=
    { s with ihs := touchKey s.ihs iname none,
             trace := s.trace ++ [Effect.closedIdxFile h] }
  let s2 : SmState :=
    { s1 with indexFiles := s1.indexFiles.erase iname,
              trace := s1.trace ++ [Effect.destroyedIdxFile iname] }
  let colNames := cols.map ColMeta.name
  let s3 : SmState := { s2 with ihs := eraseKey s2.ihs (get_index_name_cols tab cols) }
  match get_table s3.db tab with
  | none => ⟨s3, some (SmError.tableNotFound tab)⟩
  | some tm =>
    match get_index_meta tm colNames with
    | none => ⟨s3, some (SmError.indexNotFound tab colNames)⟩
    | some _ =>
      ⟨{ s3 with
          db := ⟨s3.db.name,
            mapModify s3.db.tabs tab ⟨"", [], []⟩
              (fun t => ⟨t.name, t.cols, eraseIndexOn t.indexes colNames⟩)⟩ }, none⟩

/-- The five catalog-mutating table/index operations, packaged so that
invariant preservation can be stated once over all of them. -/
inductive CatalogOp where
  | createTable : String → List ColDef → CatalogOp
  | dropTable : String → CatalogOp
  | createIndex : String → List String → CatalogOp
  | dropIndexByNames : String → List String → CatalogOp
  | dropIndexByCols : String → List ColMeta → CatalogOp

/-- Dispatch a `CatalogOp` to the corresponding member function. -/
def applyOp (s : SmState) : CatalogOp → SmResult
  | CatalogOp.createTable t d => create_table s t d
  | CatalogOp.dropTable t => drop_table s t
  | CatalogOp.createIndex t ns => create_index s t ns
  | CatalogOp.dropIndexByNames t ns => drop_index_names s t ns
  | CatalogOp.dropIndexByCols t cs => drop_index_cols s t cs

/-- The index identity of an `IndexMeta`, as computed everywhere in the
source: `get_index_name` of the owning table and the ordered column
names. -/
def identOf (tab : String) (im : IndexMeta) : String :=
  get_index_name tab (im.cols.map ColMeta.name)

/-- All index identities contributed by one table. -/
def idxIdentsOfTab (tn : String) (tm : TabMeta) : List String :=
  tm.indexes.map (identOf tn)

/-- All index identities of a table map, in order. -/
def idxIdentsT : List (String × TabMeta) → List String
  | [] => []
  | e :: rest => idxIdentsOfTab e.1 e.2 ++ idxIdentsT rest

/-- Invariant I1: every table name of the schema has exactly one
registered record-file handle, and vice versa — the key multiset of
`db_.tabs_` and the key multiset of `fhs_` agree and are duplicate
free. -/
def I1 (s : SmState) : Prop :=
  ∀ n : String, countK (keyList s.db.tabs) n = countK (keyList s.fhs) n ∧
    countK (keyList s.db.tabs) n ≤ 1

/-- Invariant I2: every `IndexMeta` of every table has exactly one
registered index handle with the matching identity, and vice versa. -/
def I2 (s : SmState) : Prop :=
  ∀ k : String, countK (idxIdentsT s.db.tabs) k = countK (keyList s.ihs) k ∧
    countK (idxIdentsT s.db.tabs) k ≤ 1

/-- Every registered index handle's physical index file exists (the
relationship `create_index` implicitly relies on, since its
already-exists precondition checks the physical file, not the
registry). -/
def SyncIdx (s : SmState) : Prop :=
  ∀ k : String, (lookupKey s.ihs k).isSome = true → k ∈ s.indexFiles

/-- Executable check of the `I1`/`I2`-shaped conditions: it is enough to
check the keys occurring in either list. -/
def invCheck (A B : List String) : Bool :=
  (A ++ B).all (fun n => decide (countK A n = countK B n ∧ countK A n ≤ 1))

/-- Executable form of `I1`. -/
def I1b (s : SmState) : Bool := invCheck (keyList s.db.tabs) (keyList s.fhs)

/-- Executable form of `I2`. -/
def I2b (s : SmState) : Bool := invCheck (idxIdentsT s.db.tabs) (keyList s.ihs)

/-- The registry shape left by the index-destruction loop: erase the
identity of each listed index in turn. -/
def eraseFold (tab : String) : List IndexMeta → List (String × Option Nat) → List (String × Option Nat)
  | [], m => m
  | im :: rest, m => eraseFold tab rest (eraseKey m (identOf tab im))

/-- The per-operation side condition needed on top of I1/I2: for
`create_index` the target table must be present in the schema (the
source only checks this implicitly, through `get_col`, and only when the
column-name list is nonempty). -/
def opTableOk (s : SmState) : CatalogOp → Prop
  | CatalogOp.createIndex t _ => (get_table s.db t).isSome = true
  | _ => True

/-- A small open-database state: one table `t` with one column, its
record-file handle registered, no indexes. -/
def c1wState : SmState :=
  { cwd := ["r", "db1"], dirs := [["r", "db1"]], metaDisk := [],
    recordFiles := ["t"], indexFiles := [],
    db := ⟨"db1", [("t", ⟨"t", [⟨"t", "a", 0, 4, 0, false⟩], []⟩)]⟩,
    fhs := [("t", some 0)], ihs := [], hcounter := 1, trace := [] }

/-- An empty open-database state (no tables, no handles, no files). -/
def c1cState : SmState :=
  { cwd := ["r", "db1"], dirs := [["r", "db1"]], metaDisk := [],
    recordFiles := [], indexFiles := [],
    db := ⟨"db1", []⟩, fhs := [], ihs := [], hcounter := 0, trace := [] }

/-- An empty open-database state for the C2 witness. -/
def c2wState : SmState :=
  { cwd := ["r", "db1"], dirs := [["r", "db1"]], metaDisk := [],
    recordFiles := [], indexFiles := [],
    db := ⟨"db1", []⟩, fhs := [], ihs := [], hcounter := 0, trace := [] }

/-- An empty open-database state for the C3 witness. -/
def c3wState : SmState :=
  { cwd := ["r", "db1"], dirs := [["r", "db1"]], metaDisk := [],
    recordFiles := [], indexFiles := [],
    db := ⟨"db1", []⟩, fhs := [], ihs := [], hcounter := 0, trace := [] }

/-- A state in which table `t` is absent from the schema but a stale
record-file handle is registered under `t`. -/
def c3cState : SmState :=
  { cwd := ["r", "db1"], dirs := [["r", "db1"]], metaDisk := [],
    recordFiles := [], indexFiles := [],
    db := ⟨"db1", []⟩, fhs := [("t", some 7)], ihs := [], hcounter := 8, trace := [] }

/-- A state with no directory named `nodb`. -/
def c5wState : SmState :=
  { cwd := ["r"], dirs := [["r", "db1"]], metaDisk := [],
    recordFiles := [], indexFiles := [],
    db := ⟨"", []⟩, fhs := [], ihs := [], hcounter := 0, trace := [] }

/-- An already-closed state whose metadata file still holds a schema. -/
def c6wState : SmState :=
  { cwd := ["r", "db1"], dirs := [["r", "db1"]],
    metaDisk := [(["r", "db1", "db.meta"], ⟨"db1", [("t", ⟨"t", [], []⟩)]⟩)],
    recordFiles := [], indexFiles := [],
    db := emptyDb, fhs := [], ihs := [], hcounter := 0, trace := [] }

/-- An already-closed state whose on-disk metadata file still describes
a one-table schema. -/
def c6cState : SmState :=
  { cwd := ["r", "db1"], dirs := [["r", "db1"]],
    metaDisk := [(["r", "db1", "db.meta"], ⟨"db1", [("t", ⟨"t", [], []⟩)]⟩)],
    recordFiles := [], indexFiles := [],
    db := emptyDb, fhs := [], ihs := [], hcounter := 0, trace := [] }

/-- An open database holding table `t` with one integer column `c`. -/
def c8State : SmState :=
  { cwd := ["r", "db1"], dirs := [["r", "db1"]], metaDisk := [],
    recordFiles := ["t"], indexFiles := [],
    db := ⟨"db1", [("t", ⟨"t", [⟨"t", "c", 0, 4, 0, false⟩], []⟩)]⟩,
    fhs := [("t", some 0)], ihs := [], hcounter := 1, trace := [] }

/-- An open database holding table `t` (column `c`), with no index and
no registered index handle. -/
def c9State : SmState :=
  { cwd := ["r", "db1"], dirs := [["r", "db1"]], metaDisk := [],
    recordFiles := ["t"], indexFiles := [],
    db := ⟨"db1", [("t", ⟨"t", [⟨"t", "c", 0, 4, 0, false⟩], []⟩)]⟩,
    fhs := [("t", some 0)], ihs := [], hcounter := 1, trace := [] }

/-- A state in which directory `db1` exists under the current working
directory `r`. -/
def c10State : SmState :=
  { cwd := ["r"], dirs := [["r", "db1"]], metaDisk := [],
    recordFiles := [], indexFiles := [],
    db := ⟨"", []⟩, fhs := [], ihs := [], hcounter := 0, trace := [] }

/-! The development below first establishes the bookkeeping lemmas for
the association-list operations, then the success-path
characterizations of each catalog operation, and finally settles the
stated properties of the manager. -/

lemma countK_cons {κ : Type} [DecidableEq κ] (a : κ) (l : List κ) (k : κ) :
    countK (a :: l) k = (if a = k then 1 else 0) + countK l k := by
  by_cases h : a = k
  · simp only [countK, List.filter_cons, h, decide_true_eq_true, if_pos, List.length_cons,
      decide_eq_true_eq, if_true]
    omega
  · simp [countK, List.filter_cons, h]

lemma countK_append {κ : Type} [DecidableEq κ] (l1 l2 : List κ) (k : κ) :
    countK (l1 ++ l2) k = countK l1 k + countK l2 k := by
  simp [countK, List.filter_append]

lemma countK_eq_zero {κ : Type} [DecidableEq κ] (l : List κ) (k : κ) :
    countK l k = 0 ↔ k ∉ l := by
  rw [countK, List.length_eq_zero, List.filter_eq_nil_iff]
  constructor
  · intro h hk
    have := h k hk
    simp at this
  · intro h a ha
    simp only [decide_eq_true_eq]
    intro hak
    exact h (hak ▸ ha)

lemma countK_pos {κ : Type} [DecidableEq κ] (l : List κ) (k : κ) :
    0 < countK l k ↔ k ∈ l := by
  rw [Nat.pos_iff_ne_zero, ne_eq, countK_eq_zero, not_not]

lemma keyList_cons {κ α : Type} (e : κ × α) (l : List (κ × α)) :
    keyList (e :: l) = e.1 :: keyList l := rfl

lemma keyList_append {κ α : Type} (l1 l2 : List (κ × α)) :
    keyList (l1 ++ l2) = keyList l1 ++ keyList l2 := by
  simp [keyList]

lemma lookupKey_eq_none {κ α : Type} [DecidableEq κ] (l : List (κ × α)) (k : κ) :
    lookupKey l k = none ↔ k ∉ keyList l := by
  induction l with
  | nil => simp [lookupKey, keyList]
  | cons e l ih =>
    rw [keyList_cons, List.mem_cons]
    by_cases h : e.1 = k
    · simp [lookupKey, h]
    · simp only [lookupKey, if_neg h, ih]
      constructor
      · intro hh hc
        rcases hc with hc | hc
        · exact h hc.symm
        · exact hh hc
      · intro hh hc; exact hh (Or.inr hc)

lemma lookupKey_isSome {κ α : Type} [DecidableEq κ] (l : List (κ × α)) (k : κ) :
    (lookupKey l k).isSome = true ↔ k ∈ keyList l := by
  constructor
  · intro hs
    by_contra hmem
    rw [← lookupKey_eq_none] at hmem
    rw [hmem] at hs
    simp at hs
  · intro hmem
    cases h : lookupKey l k with
    | none => exact absurd hmem ((lookupKey_eq_none l k).mp h)
    | some v => rfl

lemma lookupKey_none_count {κ α : Type} [DecidableEq κ] (l : List (κ × α)) (k : κ) :
    lookupKey l k = none ↔ countK (keyList l) k = 0 := by
  rw [lookupKey_eq_none]
  exact (countK_eq_zero _ _).symm

lemma lookupKey_append_right {κ α : Type} [DecidableEq κ] (l l2 : List (κ × α)) (k : κ)
    (h : lookupKey l k = none) : lookupKey (l ++ l2) k = lookupKey l2 k := by
  induction l with
  | nil => rfl
  | cons e l ih =>
    rw [lookupKey] at h
    by_cases he : e.1 = k
    · rw [if_pos he] at h; exact absurd h (by simp)
    · rw [if_neg he] at h
      rw [List.cons_append, lookupKey, if_neg he]
      exact ih h

lemma eraseKey_of_none {κ α : Type} [DecidableEq κ] (l : List (κ × α)) (k : κ)
    (h : lookupKey l k = none) : eraseKey l k = l := by
  induction l with
  | nil => rfl
  | cons e l ih =>
    rw [lookupKey] at h
    by_cases he : e.1 = k
    · rw [if_pos he] at h; exact absurd h (by simp)
    · rw [if_neg he] at h
      rw [eraseKey, if_neg he, ih h]

lemma eraseKey_append_one {κ α : Type} [DecidableEq κ] (l : List (κ × α)) (k : κ) (v : α)
    (h : lookupKey l k = none) : eraseKey (l ++ [(k, v)]) k = l := by
  induction l with
  | nil => simp [eraseKey]
  | cons e l ih =>
    rw [lookupKey] at h
    by_cases he : e.1 = k
    · rw [if_pos he] at h; exact absurd h (by simp)
    · rw [if_neg he] at h
      rw [List.cons_append, eraseKey, if_neg he, ih h]

lemma countK_keyList_eraseKey {κ α : Type} [DecidableEq κ] (l : List (κ × α)) (k n : κ) :
    countK (keyList (eraseKey l k)) n
      = countK (keyList l) n - (if n = k then 1 else 0) := by
  induction l with
  | nil => simp [eraseKey, keyList, countK]
  | cons e l ih =>
    by_cases he : e.1 = k
    · rw [show eraseKey (e :: l) k = l by rw [eraseKey, if_pos he]]
      rw [keyList_cons, countK_cons]
      by_cases hn : n = k
      · subst hn; rw [if_pos he, if_pos rfl]; omega
      · rw [if_neg (fun hh : e.1 = n => hn (hh.symm.trans he)), if_neg hn]; omega
    · rw [show eraseKey (e :: l) k = e :: eraseKey l k by rw [eraseKey, if_neg he]]
      rw [keyList_cons, countK_cons, keyList_cons, countK_cons, ih]
      by_cases hn : n = k
      · subst hn
        rw [if_neg (fun hh : e.1 = n => he hh)]
        omega
      · rw [if_neg hn]
        omega

lemma touchKey_lookup_some {κ α : Type} [DecidableEq κ] (l : List (κ × α)) (k : κ) (d v : α)
    (h : lookupKey l k = some v) : touchKey l k d = l := by
  rw [touchKey, h]

lemma touchKey_lookup_none {κ α : Type} [DecidableEq κ] (l : List (κ × α)) (k : κ) (d : α)
    (h : lookupKey l k = none) : touchKey l k d = l ++ [(k, d)] := by
  rw [touchKey, h]

lemma eraseKey_touchKey {κ α : Type} [DecidableEq κ] (l : List (κ × α)) (k : κ) (d : α) :
    eraseKey (touchKey l k d) k = eraseKey l k := by
  rw [touchKey]
  cases h : lookupKey l k with
  | some v => rfl
  | none => rw [eraseKey_append_one l k d h, eraseKey_of_none l k h]

lemma emplaceKey_lookup_none {κ α : Type} [DecidableEq κ] (l : List (κ × α)) (k : κ) (v : α)
    (h : lookupKey l k = none) : emplaceKey l k v = l ++ [(k, v)] := by
  rw [emplaceKey, h]

lemma emplaceKey_lookup_some {κ α : Type} [DecidableEq κ] (l : List (κ × α)) (k : κ) (v w : α)
    (h : lookupKey l k = some w) : emplaceKey l k v = l := by
  rw [emplaceKey, h]

lemma setKey_of_none {κ α : Type} [DecidableEq κ] (l : List (κ × α)) (k : κ) (v : α)
    (h : lookupKey l k = none) : setKey l k v = l ++ [(k, v)] := by
  induction l with
  | nil => rfl
  | cons e l ih =>
    rw [lookupKey] at h
    by_cases he : e.1 = k
    · rw [if_pos he] at h; exact absurd h (by simp)
    · rw [if_neg he] at h
      rw [setKey, if_neg he, ih h, List.cons_append]

lemma lookupKey_setKey_self {κ α : Type} [DecidableEq κ] (l : List (κ × α)) (k : κ) (v : α) :
    lookupKey (setKey l k v) k = some v := by
  induction l with
  | nil => simp [setKey, lookupKey]
  | cons e l ih =>
    by_cases he : e.1 = k
    · rw [setKey, if_pos he, lookupKey, if_pos rfl]
    · rw [setKey, if_neg he, lookupKey, if_neg he, ih]

/-- Decomposition of an association list around the first entry with a
present key, together with the effect of `eraseKey`, `mapModify` and
`setKey` on it. -/
lemma lookupKey_decomp {κ α : Type} [DecidableEq κ] (l : List (κ × α)) (k : κ) (v : α)
    (h : lookupKey l k = some v) :
    ∃ l1 l2, l = l1 ++ (k, v) :: l2 ∧ lookupKey l1 k = none ∧
      eraseKey l k = l1 ++ l2 ∧
      (∀ d f, mapModify l k d f = l1 ++ (k, f v) :: l2) ∧
      (∀ w, setKey l k w = l1 ++ (k, w) :: l2) := by
  induction l with
  | nil => simp [lookupKey] at h
  | cons e l ih =>
    rw [lookupKey] at h
    by_cases he : e.1 = k
    · rw [if_pos he] at h
      refine ⟨[], l, ?_, rfl, ?_, ?_, ?_⟩
      · have : e = (k, v) := by
          cases e
          simp only [Option.some.injEq] at h
          simp_all
        rw [this, List.nil_append]
      · rw [eraseKey, if_pos he, List.nil_append]
      · intro d f
        rw [mapModify, if_pos he, List.nil_append]
        have : e.2 = v := by simpa using h
        rw [this]
      · intro w
        rw [setKey, if_pos he, List.nil_append]
    · rw [if_neg he] at h
      obtain ⟨l1, l2, hdec, hnone, herase, hmod, hset⟩ := ih h
      refine ⟨e :: l1, l2, ?_, ?_, ?_, ?_, ?_⟩
      · rw [List.cons_append, ← hdec]
      · rw [lookupKey, if_neg he]; exact hnone
      · rw [eraseKey, if_neg he, herase, List.cons_append]
      · intro d f
        rw [mapModify, if_neg he, hmod d f, List.cons_append]
      · intro w
        rw [setKey, if_neg he, hset w, List.cons_append]

/-- `mapModify` at a present key does not change the key list. -/
lemma keyList_mapModify_some {κ α : Type} [DecidableEq κ] (l : List (κ × α)) (k : κ)
    (v d : α) (f : α → α) (h : lookupKey l k = some v) :
    keyList (mapModify l k d f) = keyList l := by
  obtain ⟨l1, l2, hdec, _, _, hmod, _⟩ := lookupKey_decomp l k v h
  rw [hmod d f, hdec, keyList_append, keyList_append, keyList_cons, keyList_cons]

lemma idxIdentsT_append (l1 l2 : List (String × TabMeta)) :
    idxIdentsT (l1 ++ l2) = idxIdentsT l1 ++ idxIdentsT l2 := by
  induction l1 with
  | nil => rfl
  | cons e l ih => rw [List.cons_append, idxIdentsT, idxIdentsT, ih, List.append_assoc]

/-- Decomposition of an index list around the first index matching a
column-name list, with the effect of `eraseIndexOn`. -/
lemma find_index_decomp (L : List IndexMeta) (ns : List String) (im : IndexMeta)
    (h : L.find? (fun x => decide (x.cols.map ColMeta.name = ns)) = some im) :
    ∃ p1 p2, L = p1 ++ im :: p2 ∧ (∀ x ∈ p1, x.cols.map ColMeta.name ≠ ns) ∧
      eraseIndexOn L ns = p1 ++ p2 ∧ im.cols.map ColMeta.name = ns := by
  induction L with
  | nil => simp at h
  | cons x L ih =>
    by_cases hp : x.cols.map ColMeta.name = ns
    · rw [List.find?_cons_of_pos _ (by simpa using hp)] at h
      obtain rfl : x = im := by simpa using h
      exact ⟨[], L, by simp, by simp, by rw [eraseIndexOn, if_pos hp]; simp, hp⟩
    · rw [List.find?_cons_of_neg _ (by simpa using hp)] at h
      obtain ⟨p1, p2, hdec, hall, herase, him⟩ := ih h
      refine ⟨x :: p1, p2, ?_, ?_, ?_, him⟩
      · rw [List.cons_append, ← hdec]
      · intro y hy
        rcases List.mem_cons.mp hy with hy | hy
        · exact hy ▸ hp
        · exact hall y hy
      · rw [eraseIndexOn, if_neg hp, herase, List.cons_append]

/-- A successfully resolved column list carries exactly the requested
names, in order. -/
lemma resolveCols_ok_names (d : DbMeta) (t : String) (ns : List String)
    (cs : List ColMeta) (h : resolveCols d t ns = Except.ok cs) :
    cs.map ColMeta.name = ns := by
  induction ns generalizing cs with
  | nil =>
    rw [resolveCols] at h
    obtain rfl : ([] : List ColMeta) = cs := by simpa using h
    rfl
  | cons n rest ih =>
    rw [resolveCols] at h
    cases htab : get_table d t with
    | none => simp [htab] at h
    | some tm =>
      simp only [htab] at h
      cases hcol : get_col tm n with
      | none => simp [hcol] at h
      | some c =>
        simp only [hcol] at h
        cases hrest : resolveCols d t rest with
        | error e => simp [hrest] at h
        | ok cs0 =>
          simp only [hrest] at h
          obtain rfl : c :: cs0 = cs := by simpa using h
          have hc : c.name = n := by
            have := List.find?_some hcol
            simpa using this
          rw [List.map_cons, hc, ih cs0 hrest]

/-- The final `curr_offset` of the column loop is the starting offset
plus the total length of the built columns. -/
lemma colLoop_snd (tab : String) (defs : List ColDef) (c : Int) :
    (colLoop tab defs c).2 = c + sumColLens (colLoop tab defs c).1 := by
  induction defs generalizing c with
  | nil => simp [colLoop, sumColLens]
  | cons d rest ih =>
    simp only [colLoop, sumColLens]
    rw [ih (c + d.len)]
    ring

/-- Each column built by the loop sits at the starting offset plus the
total length of the columns built before it. -/
lemma colLoop_offset (tab : String) (defs : List ColDef) :
    ∀ (c : Int) (i : Nat) (hi : i < (colLoop tab defs c).1.length),
      ((colLoop tab defs c).1.get ⟨i, hi⟩).offset
        = c + sumColLens ((colLoop tab defs c).1.take i) := by
  induction defs with
  | nil => intro c i hi; simp [colLoop] at hi
  | cons d rest ih =>
    intro c i hi
    match i with
    | 0 => simp [colLoop, sumColLens]
    | Nat.succ j =>
      simp only [colLoop] at hi ⊢
      simp only [List.length_cons, Nat.succ_lt_succ_iff] at hi
      simp only [List.get_cons_succ, List.take_succ_cons, sumColLens]
      rw [ih (c + d.len) j hi]
      ring

/-- The lengths of the built columns are the lengths of the definitions. -/
lemma colLoop_lens (tab : String) (defs : List ColDef) (c : Int) :
    (colLoop tab defs c).1.map ColMeta.len = defs.map ColDef.len := by
  induction defs generalizing c with
  | nil => rfl
  | cons d rest ih =>
    simp only [colLoop, List.map_cons]
    exact congrArg _ (ih (c + d.len))

lemma invCheck_iff (A B : List String) :
    invCheck A B = true ↔ ∀ n, countK A n = countK B n ∧ countK A n ≤ 1 := by
  rw [invCheck, List.all_eq_true]
  constructor
  · intro h n
    by_cases hn : n ∈ A ++ B
    · exact of_decide_eq_true (h n hn)
    · rw [List.mem_append] at hn
      push_neg at hn
      rw [(countK_eq_zero A n).mpr hn.1, (countK_eq_zero B n).mpr hn.2]
      exact ⟨rfl, by omega⟩
  · intro h n _
    exact decide_eq_true (h n)

lemma I1b_iff (s : SmState) : I1b s = true ↔ I1 s := invCheck_iff _ _

lemma I2b_iff (s : SmState) : I2b s = true ↔ I2 s := invCheck_iff _ _

lemma dropTableIdxLoop_db (tab : String) (L : List IndexMeta) (s : SmState) :
    (dropTableIdxLoop tab L s).db = s.db := by
  induction L generalizing s with
  | nil => rfl
  | cons im rest ih => simp only [dropTableIdxLoop]; rw [ih]

lemma dropTableIdxLoop_fhs (tab : String) (L : List IndexMeta) (s : SmState) :
    (dropTableIdxLoop tab L s).fhs = s.fhs := by
  induction L generalizing s with
  | nil => rfl
  | cons im rest ih => simp only [dropTableIdxLoop]; rw [ih]

lemma dropTableIdxLoop_cwd (tab : String) (L : List IndexMeta) (s : SmState) :
    (dropTableIdxLoop tab L s).cwd = s.cwd := by
  induction L generalizing s with
  | nil => rfl
  | cons im rest ih => simp only [dropTableIdxLoop]; rw [ih]

lemma dropTableIdxLoop_metaDisk (tab : String) (L : List IndexMeta) (s : SmState) :
    (dropTableIdxLoop tab L s).metaDisk = s.metaDisk := by
  induction L generalizing s with
  | nil => rfl
  | cons im rest ih => simp only [dropTableIdxLoop]; rw [ih]

lemma dropTableIdxLoop_ihs (tab : String) (L : List IndexMeta) (s : SmState) :
    (dropTableIdxLoop tab L s).ihs = eraseFold tab L s.ihs := by
  induction L generalizing s with
  | nil => rfl
  | cons im rest ih =>
    simp only [dropTableIdxLoop, eraseFold]
    rw [ih]
    simp only [eraseKey_touchKey]
    rfl

lemma dropTableIdxLoop_traceMW (tab : String) (L : List IndexMeta) (s : SmState) :
    ((dropTableIdxLoop tab L s).trace).filter Effect.isMetaWrite
      = s.trace.filter Effect.isMetaWrite := by
  induction L generalizing s with
  | nil => rfl
  | cons im rest ih =>
    simp only [dropTableIdxLoop]
    rw [ih]
    simp [List.filter_append, Effect.isMetaWrite]

/-- Counting after repeated erasure: each listed identity removes one
occurrence, provided there are enough occurrences to remove. -/
lemma countK_eraseFold (tab : String) (L : List IndexMeta)
    (m : List (String × Option Nat)) (n : String)
    (h : countK (L.map (identOf tab)) n ≤ countK (keyList m) n) :
    countK (keyList (eraseFold tab L m)) n
      = countK (keyList m) n - countK (L.map (identOf tab)) n := by
  induction L generalizing m with
  | nil => simp [eraseFold, countK]
  | cons im rest ih =>
    rw [List.map_cons, countK_cons] at h
    rw [eraseFold, List.map_cons, countK_cons]
    have he := countK_keyList_eraseKey m (identOf tab im) n
    by_cases hn : n = identOf tab im
    · rw [if_pos (by rw [hn])] at h ⊢
      rw [if_pos hn] at he
      rw [ih _ (by omega)]
      omega
    · rw [if_neg (fun hh : identOf tab im = n => hn hh.symm)] at h ⊢
      rw [if_neg hn] at he
      rw [ih _ (by omega)]
      omega

lemma openIdxLoop_cwd (tname : String) (L : List IndexMeta) :
    ∀ s s', (openIdxLoop tname L s = Except.ok s' ∨
      openIdxLoop tname L s = Except.error s') → s'.cwd = s.cwd := by
  induction L with
  | nil =>
    intro s s' h
    rcases h with h | h
    · obtain rfl : s = s' := by simpa [openIdxLoop] using h
      rfl
    · simp [openIdxLoop] at h
  | cons im rest ih =>
    intro s s' h
    simp only [openIdxLoop] at h
    by_cases hf : get_index_name tname (im.cols.map ColMeta.name) ∈ s.indexFiles
    · rw [if_pos hf] at h
      have hc := ih _ _ h
      exact hc
    · rw [if_neg hf] at h
      rcases h with h | h
      · simp at h
      · obtain rfl : s = s' := by simpa using h
        rfl

lemma openTabLoop_cwd (L : List (String × TabMeta)) :
    ∀ s s', (openTabLoop L s = Except.ok s' ∨
      openTabLoop L s = Except.error s') → s'.cwd = s.cwd := by
  induction L with
  | nil =>
    intro s s' h
    rcases h with h | h
    · obtain rfl : s = s' := by simpa [openTabLoop] using h
      rfl
    · simp [openTabLoop] at h
  | cons e rest ih =>
    intro s s' h
    simp only [openTabLoop] at h
    by_cases hf : e.1 ∈ s.recordFiles
    · rw [if_pos hf] at h
      cases hloop : openIdxLoop e.1 e.2.indexes
          { s with
            hcounter := s.hcounter + 1,
            trace := s.trace ++ [Effect.openedRecFile e.1 (some s.hcounter)],
            fhs := setKey s.fhs e.1 (some s.hcounter) } with
      | ok s2 =>
        rw [hloop] at h
        have h2 := openIdxLoop_cwd e.1 e.2.indexes _ s2 (Or.inl hloop)
        have h3 := ih s2 s' h
        rw [h3, h2]
      | error s2 =>
        rw [hloop] at h
        have h2 := openIdxLoop_cwd e.1 e.2.indexes _ s2 (Or.inr hloop)
        rcases h with h | h
        · simp at h
        · obtain rfl : s2 = s' := by simpa using h
          exact h2
    · rw [if_neg hf] at h
      rcases h with h | h
      · simp at h
      · obtain rfl : s = s' := by simpa using h
        rfl

lemma is_table_false_iff (d : DbMeta) (n : String) :
    is_table d n = false ↔ lookupKey d.tabs n = none := by
  rw [is_table]
  cases lookupKey d.tabs n <;> simp

lemma is_table_true_iff (d : DbMeta) (n : String) :
    is_table d n = true ↔ ∃ tm, lookupKey d.tabs n = some tm := by
  rw [is_table]
  cases lookupKey d.tabs n <;> simp

/-- The state produced by a successful `create_table`. -/
lemma create_table_ok (s : SmState) (tab : String) (defs : List ColDef)
    (h : is_table s.db tab = false) :
    create_table s tab defs =
      ⟨{ s with
          recordFiles := addNew s.recordFiles tab,
          db := ⟨s.db.name, setKey s.db.tabs tab ⟨tab, (colLoop tab defs 0).1, []⟩⟩,
          hcounter := s.hcounter + 1,
          fhs := emplaceKey s.fhs tab (some s.hcounter),
          metaDisk := setKey s.metaDisk (s.cwd ++ [DB_META_NAME])
            ⟨s.db.name, setKey s.db.tabs tab ⟨tab, (colLoop tab defs 0).1, []⟩⟩,
          trace := s.trace ++ [Effect.createdRecFile tab (colLoop tab defs 0).2]
            ++ [Effect.openedRecFile tab (some s.hcounter)]
            ++ [Effect.wroteMeta (s.cwd ++ [DB_META_NAME])
                ⟨s.db.name, setKey s.db.tabs tab ⟨tab, (colLoop tab defs 0).1, []⟩⟩] }, none⟩ := by
  have h' : ¬ (is_table s.db tab = true) := by simp [h]
  simp only [create_table, flush_meta]
  rw [if_neg h']

/-- The components of the state produced by a successful `drop_table`. -/
lemma drop_table_ok (s : SmState) (tab : String) (tm : TabMeta)
    (h : lookupKey s.db.tabs tab = some tm) :
    (drop_table s tab).err = none ∧
    (drop_table s tab).state.db = ⟨s.db.name, eraseKey s.db.tabs tab⟩ ∧
    (drop_table s tab).state.fhs = eraseKey s.fhs tab ∧
    (drop_table s tab).state.ihs = eraseFold tab tm.indexes s.ihs ∧
    (drop_table s tab).state.metaDisk = s.metaDisk ∧
    (drop_table s tab).state.cwd = s.cwd ∧
    ((drop_table s tab).state.trace).filter Effect.isMetaWrite
      = s.trace.filter Effect.isMetaWrite := by
  have ht : is_table s.db tab = true := by rw [is_table, h]; rfl
  simp only [drop_table]
  rw [if_pos ht]
  simp only [h, Option.getD_some]
  refine ⟨trivial, ?_, ?_, ?_, ?_, ?_, ?_⟩
  · rw [dropTableIdxLoop_db]
  · rw [dropTableIdxLoop_fhs]
    exact eraseKey_touchKey s.fhs tab none
  · rw [dropTableIdxLoop_ihs]
  · rw [dropTableIdxLoop_metaDisk]
  · rw [dropTableIdxLoop_cwd]
  · rw [dropTableIdxLoop_traceMW]
    simp [List.filter_append, Effect.isMetaWrite]

/-- The state produced by a successful `create_index`. -/
lemma create_index_ok (s : SmState) (tab : String) (ns : List String) (cs : List ColMeta)
    (hni : get_index_name tab ns ∉ s.indexFiles)
    (hres : resolveCols s.db tab ns = Except.ok cs) :
    create_index s tab ns =
      ⟨{ s with
          indexFiles := addNew s.indexFiles (get_index_name_cols tab cs),
          hcounter := s.hcounter + 1,
          trace := s.trace ++ [Effect.createdIdxFile (get_index_name_cols tab cs)]
            ++ [Effect.openedIdxFile (get_index_name_cols tab cs) (some s.hcounter)],
          ihs := emplaceKey s.ihs (get_index_name tab ns) (some s.hcounter),
          db := ⟨s.db.name,
            mapModify s.db.tabs tab ⟨"", [], []⟩
              (fun t => ⟨t.name, t.cols,
                t.indexes ++ [⟨tab, sumColLens cs, (cs.length : Int), cs⟩]⟩)⟩ }, none⟩ := by
  simp only [create_index, hres]
  rw [if_neg hni]

/-- The state produced by a successful `drop_index` (by column names). -/
lemma drop_index_names_ok (s : SmState) (tab : String) (ns : List String)
    (tm : TabMeta) (im : IndexMeta)
    (htab : lookupKey s.db.tabs tab = some tm)
    (hmeta : get_index_meta tm ns = some im) :
    drop_index_names s tab ns =
      ⟨{ s with
          ihs := eraseKey s.ihs (get_index_name tab ns),
          indexFiles := s.indexFiles.erase (get_index_name tab ns),
          trace := s.trace
            ++ [Effect.closedIdxFile (getValD s.ihs (get_index_name tab ns) none)]
            ++ [Effect.destroyedIdxFile (get_index_name tab ns)],
          db := ⟨s.db.name,
            mapModify s.db.tabs tab ⟨"", [], []⟩
              (fun t => ⟨t.name, t.cols, eraseIndexOn t.indexes ns⟩)⟩ }, none⟩ := by
  simp only [drop_index_names, get_table, htab, hmeta]
  rw [eraseKey_touchKey]

/-- The two `drop_index` call shapes compute the same function: the
metadata-based overload is the name-based one at the projected column
names. -/
lemma drop_index_cols_eq (s : SmState) (tab : String) (cols : List ColMeta) :
    drop_index_cols s tab cols = drop_index_names s tab (cols.map ColMeta.name) := rfl

lemma countK_singleton {κ : Type} [DecidableEq κ] (x n : κ) :
    countK [x] n = if x = n then 1 else 0 := by
  rw [countK_cons]
  simp [countK]

/-- A successful `create_table` preserves I1 and I2. -/
lemma create_table_pres (s : SmState) (tab : String) (defs : List ColDef)
    (hI1 : I1 s) (hI2 : I2 s)
    (hok : (create_table s tab defs).err = none) :
    I1 (create_table s tab defs).state ∧ I2 (create_table s tab defs).state := by
  cases hbt : is_table s.db tab with
  | true =>
    exfalso
    simp only [create_table] at hok
    rw [if_pos hbt] at hok
    simp at hok
  | false =>
    rw [create_table_ok s tab defs hbt]
    have habs : lookupKey s.db.tabs tab = none := (is_table_false_iff _ _).mp hbt
    have h0 : countK (keyList s.db.tabs) tab = 0 := (lookupKey_none_count _ _).mp habs
    have habs2 : lookupKey s.fhs tab = none := by
      rw [lookupKey_none_count]
      have h1 := hI1 tab
      omega
    constructor
    · intro n
      dsimp only
      rw [setKey_of_none _ _ _ habs, emplaceKey_lookup_none _ _ _ habs2,
        keyList_append, keyList_append, countK_append, countK_append]
      have h1 := hI1 n
      have h2 : countK (keyList [(tab, TabMeta.mk tab (colLoop tab defs 0).1 [])]) n
          = if tab = n then 1 else 0 := by
        rw [show keyList [(tab, TabMeta.mk tab (colLoop tab defs 0).1 [])] = [tab] from rfl,
          countK_singleton]
      have h3 : countK (keyList [(tab, some s.hcounter)]) n = if tab = n then 1 else 0 := by
        rw [show keyList [(tab, some s.hcounter)] = [tab] from rfl, countK_singleton]
      rw [h2, h3]
      by_cases hn : tab = n
      · rw [if_pos hn]
        subst hn
        omega
      · rw [if_neg hn]
        omega
    · intro k
      dsimp only
      rw [setKey_of_none _ _ _ habs, idxIdentsT_append]
      have h2 : idxIdentsT [(tab, TabMeta.mk tab (colLoop tab defs 0).1 [])] = [] := rfl
      rw [h2, List.append_nil]
      exact hI2 k

/-- A successful `drop_table` preserves I1 and I2. -/
lemma drop_table_pres (s : SmState) (tab : String)
    (hI1 : I1 s) (hI2 : I2 s)
    (hok : (drop_table s tab).err = none) :
    I1 (drop_table s tab).state ∧ I2 (drop_table s tab).state := by
  cases htab : lookupKey s.db.tabs tab with
  | none =>
    exfalso
    have hbt : is_table s.db tab = false := (is_table_false_iff _ _).mpr htab
    simp only [drop_table] at hok
    rw [if_neg (by simp [hbt])] at hok
    simp at hok
  | some tm =>
    obtain ⟨-, hdb, hfhs, hihs, -, -, -⟩ := drop_table_ok s tab tm htab
    obtain ⟨l1, l2, hdec, hl1, herase, hmod, hset⟩ := lookupKey_decomp s.db.tabs tab tm htab
    constructor
    · intro n
      rw [hdb, hfhs]
      show countK (keyList (eraseKey s.db.tabs tab)) n
          = countK (keyList (eraseKey s.fhs tab)) n ∧
        countK (keyList (eraseKey s.db.tabs tab)) n ≤ 1
      rw [countK_keyList_eraseKey, countK_keyList_eraseKey]
      have h1 := hI1 n
      by_cases hn : n = tab
      · rw [if_pos hn]; omega
      · rw [if_neg hn]; omega
    · intro k
      rw [hdb, hihs]
      show countK (idxIdentsT (eraseKey s.db.tabs tab)) k
          = countK (keyList (eraseFold tab tm.indexes s.ihs)) k ∧
        countK (idxIdentsT (eraseKey s.db.tabs tab)) k ≤ 1
      have h2 := hI2 k
      rw [hdec, idxIdentsT_append] at h2
      simp only [idxIdentsT, idxIdentsOfTab, countK_append] at h2
      have hbound : countK (tm.indexes.map (identOf tab)) k ≤ countK (keyList s.ihs) k := by
        omega
      rw [herase, idxIdentsT_append, countK_append,
        countK_eraseFold tab tm.indexes s.ihs k hbound]
      omega

lemma countK_nil {κ : Type} [DecidableEq κ] (k : κ) : countK ([] : List κ) k = 0 := rfl

lemma keyList_single {κ α : Type} (e : κ × α) : keyList [e] = [e.1] := rfl

/-- A successful `create_index` on a table present in the schema, from a
state where every registered index handle's file exists, preserves I1
and I2. -/
lemma create_index_pres (s : SmState) (tab : String) (ns : List String)
    (hI1 : I1 s) (hI2 : I2 s) (hSync : SyncIdx s)
    (htab : (get_table s.db tab).isSome = true)
    (hok : (create_index s tab ns).err = none) :
    I1 (create_index s tab ns).state ∧ I2 (create_index s tab ns).state := by
  by_cases hni : get_index_name tab ns ∈ s.indexFiles
  · exfalso
    simp only [create_index] at hok
    rw [if_pos hni] at hok
    simp at hok
  · cases hres : resolveCols s.db tab ns with
    | error e =>
      exfalso
      simp only [create_index, hres] at hok
      rw [if_neg hni] at hok
      simp at hok
    | ok cs =>
      cases htm : lookupKey s.db.tabs tab with
      | none =>
        exact absurd htab
          (by rw [show get_table s.db tab = lookupKey s.db.tabs tab from rfl, htm]; simp)
      | some tm =>
        rw [create_index_ok s tab ns cs hni hres]
        obtain ⟨l1, l2, hdec, hl1, herase2, hmod, hset⟩ := lookupKey_decomp s.db.tabs tab tm htm
        have hnone : lookupKey s.ihs (get_index_name tab ns) = none := by
          cases hlk : lookupKey s.ihs (get_index_name tab ns) with
          | none => rfl
          | some v => exact absurd (hSync _ (by rw [hlk]; rfl)) hni
        have h0ihs : countK (keyList s.ihs) (get_index_name tab ns) = 0 :=
          (lookupKey_none_count _ _).mp hnone
        have hnames : cs.map ColMeta.name = ns := resolveCols_ok_names s.db tab ns cs hres
        have hident :
            identOf tab (⟨tab, sumColLens cs, (cs.length : Int), cs⟩ : IndexMeta)
              = get_index_name tab ns := by
          rw [identOf]
          show get_index_name tab (cs.map ColMeta.name) = get_index_name tab ns
          rw [hnames]
        constructor
        · intro n
          dsimp only
          rw [keyList_mapModify_some s.db.tabs tab tm _ _ htm]
          exact hI1 n
        · intro k
          dsimp only
          rw [hmod, emplaceKey_lookup_none _ _ _ hnone, idxIdentsT_append, keyList_append]
          simp only [idxIdentsT, idxIdentsOfTab, List.map_append, List.map_cons,
            List.map_nil, countK_append, countK_cons, countK_nil, keyList_single]
          rw [hident]
          have h2 := hI2 k
          rw [hdec, idxIdentsT_append] at h2
          simp only [idxIdentsT, idxIdentsOfTab, countK_append] at h2
          by_cases hk : get_index_name tab ns = k
          · subst hk
            simp only [eq_self_iff_true, if_true]
            omega
          · rw [if_neg hk]
            omega

/-- A successful `drop_index` (by column names) preserves I1 and I2. -/
lemma drop_index_names_pres (s : SmState) (tab : String) (ns : List String)
    (hI1 : I1 s) (hI2 : I2 s)
    (hok : (drop_index_names s tab ns).err = none) :
    I1 (drop_index_names s tab ns).state ∧ I2 (drop_index_names s tab ns).state := by
  cases htab : lookupKey s.db.tabs tab with
  | none =>
    exfalso
    simp only [drop_index_names, get_table, htab] at hok
    simp at hok
  | some tm =>
    cases hmeta : get_index_meta tm ns with
    | none =>
      exfalso
      simp only [drop_index_names, get_table, htab, hmeta] at hok
      simp at hok
    | some im =>
      rw [drop_index_names_ok s tab ns tm im htab hmeta]
      obtain ⟨l1, l2, hdec, hl1, herase2, hmod, hset⟩ := lookupKey_decomp s.db.tabs tab tm htab
      obtain ⟨p1, p2, hidec, hp1, hier, him⟩ := find_index_decomp tm.indexes ns im hmeta
      have hident : identOf tab im = get_index_name tab ns := by
        rw [identOf, him]
      constructor
      · intro n
        dsimp only
        rw [keyList_mapModify_some s.db.tabs tab tm _ _ htab]
        exact hI1 n
      · intro k
        dsimp only
        rw [hmod, idxIdentsT_append, countK_keyList_eraseKey]
        simp only [idxIdentsT, idxIdentsOfTab, countK_append]
        rw [hier, List.map_append, countK_append]
        have h2 := hI2 k
        rw [hdec, idxIdentsT_append] at h2
        simp only [idxIdentsT, idxIdentsOfTab, countK_append, hidec, List.map_append,
          List.map_cons, countK_cons, countK_append] at h2
        rw [hident] at h2
        by_cases hk : get_index_name tab ns = k
        · subst hk
          simp only [if_pos rfl] at h2 ⊢
          omega
        · rw [if_neg (fun hh : k = get_index_name tab ns => hk hh.symm)]
          rw [if_neg hk] at h2
          omega

/-- A successful `drop_index` (by column metadata) preserves I1 and I2. -/
lemma drop_index_cols_pres (s : SmState) (tab : String) (cols : List ColMeta)
    (hI1 : I1 s) (hI2 : I2 s)
    (hok : (drop_index_cols s tab cols).err = none) :
    I1 (drop_index_cols s tab cols).state ∧ I2 (drop_index_cols s tab cols).state := by
  rw [drop_index_cols_eq] at hok ⊢
  exact drop_index_names_pres s tab (cols.map ColMeta.name) hI1 hI2 hok

lemma syncIdx_nil (s : SmState) (h : s.ihs = []) : SyncIdx s := by
  intro k hk
  rw [h] at hk
  simp [lookupKey] at hk

/-- C1 (amended): starting from a state satisfying I1, I2, the
file–registry correspondence `SyncIdx` (every registered index handle's
physical file exists — needed because `create_index`'s duplicate check
consults the physical file, not the registry), and — for `create_index`
— the presence of the target table in the schema (needed because an
empty column list skips the table lookup and `operator[]` then
fabricates a catalog entry), every successful `create_table`,
`drop_table`, `create_index` and `drop_index` (either overload)
preserves I1 and I2. -/
theorem c1_invariant_preservation (s : SmState) (op : CatalogOp)
    (hI1 : I1 s) (hI2 : I2 s) (hSync : SyncIdx s) (hTab : opTableOk s op)
    (hok : (applyOp s op).err = none) :
    I1 (applyOp s op).state ∧ I2 (applyOp s op).state := by
  cases op with
  | createTable t d => exact create_table_pres s t d hI1 hI2 hok
  | dropTable t => exact drop_table_pres s t hI1 hI2 hok
  | createIndex t ns => exact create_index_pres s t ns hI1 hI2 hSync hTab hok
  | dropIndexByNames t ns => exact drop_index_names_pres s t ns hI1 hI2 hok
  | dropIndexByCols t cs => exact drop_index_cols_pres s t cs hI1 hI2 hok

theorem c1_invariant_preservation_witness :
    I1 c1wState ∧ I2 c1wState ∧ SyncIdx c1wState ∧
    opTableOk c1wState (CatalogOp.dropTable "t") ∧
    (applyOp c1wState (CatalogOp.dropTable "t")).err = none ∧
    (I1 (applyOp c1wState (CatalogOp.dropTable "t")).state ∧
      I2 (applyOp c1wState (CatalogOp.dropTable "t")).state) := by
  have hI1 : I1 c1wState := (I1b_iff _).mp (by decide)
  have hI2 : I2 c1wState := (I2b_iff _).mp (by decide)
  have hS : SyncIdx c1wState := syncIdx_nil _ rfl
  have hok : (applyOp c1wState (CatalogOp.dropTable "t")).err = none := by decide
  exact ⟨hI1, hI2, hS, trivial, hok,
    c1_invariant_preservation c1wState (CatalogOp.dropTable "t") hI1 hI2 hS trivial hok⟩

/-- C1 as frozen is false: from a state satisfying I1 and I2, the
successful call `create_index("g", [])` — an empty column list on an
absent table — fabricates a table entry `g` in the schema through
`db_.tabs_[tab_name]` without ever opening a record file, breaking I1. -/
theorem c1_counterexample :
    I1 c1cState ∧ I2 c1cState ∧
    (applyOp c1cState (CatalogOp.createIndex "g" [])).err = none ∧
    ¬ (I1 (applyOp c1cState (CatalogOp.createIndex "g" [])).state ∧
       I2 (applyOp c1cState (CatalogOp.createIndex "g" [])).state) := by
  refine ⟨(I1b_iff _).mp (by decide), (I2b_iff _).mp (by decide), by decide, ?_⟩
  intro hc
  have hbt := (I1b_iff _).mpr hc.1
  have hbf : I1b (applyOp c1cState (CatalogOp.createIndex "g" [])).state = false := by decide
  rw [hbf] at hbt
  exact Bool.noConfusion hbt

/-- C2: a successful `create_table` gives each column an offset equal to
the sum of the lengths of the strictly preceding columns (the first at
offset 0), and passes the sum of all column lengths to
`rm_manager_->create_file` as the record size. -/
theorem c2_column_layout (s : SmState) (tab : String) (defs : List ColDef)
    (h : is_table s.db tab = false) :
    (create_table s tab defs).err = none ∧
    lookupKey (create_table s tab defs).state.db.tabs tab
      = some ⟨tab, (colLoop tab defs 0).1, []⟩ ∧
    (∀ i, ∀ hi : i < (colLoop tab defs 0).1.length,
      ((colLoop tab defs 0).1.get ⟨i, hi⟩).offset
        = sumColLens ((colLoop tab defs 0).1.take i)) ∧
    (colLoop tab defs 0).2 = sumColLens (colLoop tab defs 0).1 ∧
    Effect.createdRecFile tab (colLoop tab defs 0).2
      ∈ (create_table s tab defs).state.trace := by
  rw [create_table_ok s tab defs h]
  dsimp only
  refine ⟨rfl, lookupKey_setKey_self _ _ _, ?_, ?_, ?_⟩
  · intro i hi
    rw [colLoop_offset tab defs 0 i hi]
    omega
  · have hs := colLoop_snd tab defs 0
    omega
  · simp

theorem c2_column_layout_witness :
    is_table c2wState.db "orders" = false ∧
    (create_table c2wState "orders" [⟨"id", 0, 4⟩, ⟨"total", 0, 4⟩]).err = none ∧
    lookupKey (create_table c2wState "orders" [⟨"id", 0, 4⟩, ⟨"total", 0, 4⟩]).state.db.tabs
        "orders"
      = some ⟨"orders", (colLoop "orders" [⟨"id", 0, 4⟩, ⟨"total", 0, 4⟩] 0).1, []⟩ := by
  have h : is_table c2wState.db "orders" = false := by decide
  have hc := c2_column_layout c2wState "orders" [⟨"id", 0, 4⟩, ⟨"total", 0, 4⟩] h
  exact ⟨h, hc.1, hc.2.1⟩

/-- C3 (amended): from a state where table `T` is absent from the schema
and no record-file handle is registered under `T`, running
`create_table(T, defs)` and then `drop_table(T)` succeeds and restores
the in-memory schema, the table-handle registry and the index-handle
registry exactly. -/
theorem c3_create_drop_roundtrip (s : SmState) (tab : String) (defs : List ColDef)
    (h1 : is_table s.db tab = false) (h2 : lookupKey s.fhs tab = none) :
    (create_table s tab defs).err = none ∧
    (drop_table (create_table s tab defs).state tab).err = none ∧
    (drop_table (create_table s tab defs).state tab).state.db = s.db ∧
    (drop_table (create_table s tab defs).state tab).state.fhs = s.fhs ∧
    (drop_table (create_table s tab defs).state tab).state.ihs = s.ihs := by
  have habs : lookupKey s.db.tabs tab = none := (is_table_false_iff _ _).mp h1
  rw [create_table_ok s tab defs h1]
  dsimp only
  obtain ⟨e1, edb, efhs, eihs, e4, e5, e6⟩ :=
    drop_table_ok
      { s with
        recordFiles := addNew s.recordFiles tab,
        db := ⟨s.db.name, setKey s.db.tabs tab ⟨tab, (colLoop tab defs 0).1, []⟩⟩,
        hcounter := s.hcounter + 1,
        fhs := emplaceKey s.fhs tab (some s.hcounter),
        metaDisk := setKey s.metaDisk (s.cwd ++ [DB_META_NAME])
          ⟨s.db.name, setKey s.db.tabs tab ⟨tab, (colLoop tab defs 0).1, []⟩⟩,
        trace := s.trace ++ [Effect.createdRecFile tab (colLoop tab defs 0).2]
          ++ [Effect.openedRecFile tab (some s.hcounter)]
          ++ [Effect.wroteMeta (s.cwd ++ [DB_META_NAME])
              ⟨s.db.name, setKey s.db.tabs tab ⟨tab, (colLoop tab defs 0).1, []⟩⟩] }
      tab ⟨tab, (colLoop tab defs 0).1, []⟩
      (lookupKey_setKey_self s.db.tabs tab ⟨tab, (colLoop tab defs 0).1, []⟩)
  refine ⟨rfl, e1, ?_, ?_, ?_⟩
  · rw [edb]
    show (⟨s.db.name,
        eraseKey (setKey s.db.tabs tab ⟨tab, (colLoop tab defs 0).1, []⟩) tab⟩ : DbMeta)
      = s.db
    rw [setKey_of_none _ _ _ habs, eraseKey_append_one _ _ _ habs]
  · rw [efhs]
    show eraseKey (emplaceKey s.fhs tab (some s.hcounter)) tab = s.fhs
    rw [emplaceKey_lookup_none _ _ _ h2, eraseKey_append_one _ _ _ h2]
  · rw [eihs]
    rfl

theorem c3_create_drop_roundtrip_witness :
    is_table c3wState.db "t" = false ∧ lookupKey c3wState.fhs "t" = none ∧
    (drop_table (create_table c3wState "t" [⟨"a", 0, 4⟩]).state "t").state.db
      = c3wState.db := by
  have h1 : is_table c3wState.db "t" = false := by decide
  have h2 : lookupKey c3wState.fhs "t" = none := by decide
  exact ⟨h1, h2, (c3_create_drop_roundtrip c3wState "t" [⟨"a", 0, 4⟩] h1 h2).2.2.1⟩

/-- C3 as frozen is false: with table `t` absent from the schema but a
stale handle registered under `t`, `create_table` discards its fresh
handle (a silent `emplace` on a present key) and the following
`drop_table` erases the stale entry, so the registry does not return to
its prior state. -/
theorem c3_counterexample :
    is_table c3cState.db "t" = false ∧
    (drop_table (create_table c3cState "t" [⟨"a", 0, 4⟩]).state "t").state.fhs
      ≠ c3cState.fhs := by
  refine ⟨by decide, by decide⟩

/-- C4: the two `drop_index` call shapes resolve to the same index
identity and compute identical results (same end state, same error
behavior, same recorded effects) — the metadata overload equals the
name overload at the projected column names. -/
theorem c4_drop_index_shapes (s : SmState) (tab : String) (cols : List ColMeta) :
    get_index_name_cols tab cols = get_index_name tab (cols.map ColMeta.name) ∧
    drop_index_cols s tab cols = drop_index_names s tab (cols.map ColMeta.name) :=
  ⟨rfl, drop_index_cols_eq s tab cols⟩

/-- C5: `open_db` never lets an error escape — the `try`/`catch` around
its whole body prints and returns normally, so a missing database
directory (and likewise a missing or unreadable metadata file) does not
surface as a typed `DatabaseNotFound`-class error; in the
missing-directory case the call returns normally having only logged the
swallowed exception. -/
theorem c5_open_db_swallows (s : SmState) (name : String) :
    (open_db s name).err = none ∧
    (is_dir s name = false →
      open_db s name = ⟨{ s with trace := s.trace ++ [Effect.loggedError] }, none⟩) := by
  constructor
  · simp only [open_db]
    split
    · rfl
    · split <;> rfl
  · intro hd
    simp only [open_db]
    rw [if_pos hd]

theorem c5_open_db_swallows_witness :
    (open_db c5wState "nodb").err = none ∧
    is_dir c5wState "nodb" = false ∧
    open_db c5wState "nodb"
      = ⟨{ c5wState with trace := c5wState.trace ++ [Effect.loggedError] }, none⟩ := by
  have hd : is_dir c5wState "nodb" = false := by decide
  exact ⟨(c5_open_db_swallows c5wState "nodb").1, hd,
    (c5_open_db_swallows c5wState "nodb").2 hd⟩

/-- C6 (amended): `close_db` on an already-closed state (empty schema,
empty registries) performs no handle operations and leaves every
in-memory component unchanged, but it still unconditionally rewrites the
metadata file at the current working directory with the empty schema —
an observable side effect; repeated `close_db` calls agree on all
in-memory state (schema and both registries). -/
theorem c6_close_db_idempotent (s : SmState)
    (h1 : s.db = emptyDb) (h2 : s.fhs = []) (h3 : s.ihs = []) :
    close_db s =
      { s with
        metaDisk := setKey s.metaDisk (s.cwd ++ [DB_META_NAME]) emptyDb,
        trace := s.trace ++ [Effect.wroteMeta (s.cwd ++ [DB_META_NAME]) emptyDb] } ∧
    (∀ s' : SmState, (close_db (close_db s')).db = (close_db s').db ∧
      (close_db (close_db s')).fhs = (close_db s').fhs ∧
      (close_db (close_db s')).ihs = (close_db s').ihs) := by
  constructor
  · simp only [close_db, flush_meta, h1, h2, h3]
    simp [emptyDb]
  · intro s'
    exact ⟨rfl, rfl, rfl⟩

theorem c6_close_db_idempotent_witness :
    c6wState.db = emptyDb ∧ c6wState.fhs = [] ∧ c6wState.ihs = [] ∧
    close_db c6wState =
      { c6wState with
        metaDisk := setKey c6wState.metaDisk (c6wState.cwd ++ [DB_META_NAME]) emptyDb,
        trace := c6wState.trace
          ++ [Effect.wroteMeta (c6wState.cwd ++ [DB_META_NAME]) emptyDb] } := by
  have h1 : c6wState.db = emptyDb := rfl
  have h2 : c6wState.fhs = [] := rfl
  have h3 : c6wState.ihs = [] := rfl
  exact ⟨h1, h2, h3, (c6_close_db_idempotent c6wState h1 h2 h3).1⟩

/-- C6 as frozen is false: calling `close_db` in an already-closed state
is not free of observable side effects — it overwrites the metadata file
in the current working directory with the empty schema, changing the
state. -/
theorem c6_counterexample :
    c6cState.db = emptyDb ∧ c6cState.fhs = [] ∧ c6cState.ihs = [] ∧
    (close_db c6cState).metaDisk ≠ c6cState.metaDisk ∧
    close_db c6cState ≠ c6cState := by
  refine ⟨rfl, rfl, rfl, by decide, by decide⟩

/-- C7: `drop_table` never persists metadata — on every input (success
or failure) the on-disk metadata files are untouched and no metadata
write is recorded, so after a successful drop the metadata file still
describes the dropped table. -/
theorem c7_drop_table_no_persist (s : SmState) (tab : String) :
    (drop_table s tab).state.metaDisk = s.metaDisk ∧
    ((drop_table s tab).state.trace).filter Effect.isMetaWrite
      = s.trace.filter Effect.isMetaWrite := by
  cases htab : lookupKey s.db.tabs tab with
  | none =>
    have hbt : is_table s.db tab = false := (is_table_false_iff _ _).mpr htab
    simp only [drop_table]
    rw [if_neg (by simp [hbt])]
    exact ⟨rfl, rfl⟩
  | some tm =>
    obtain ⟨-, -, -, -, e4, -, e6⟩ := drop_table_ok s tab tm htab
    exact ⟨e4, e6⟩

/-- C8 is contradicted by the code: after a successful
`create_index("t", ["c"])` the participating column's `index` flag is
still `false` — `create_index` never touches the table's `ColMeta`s —
so `desc_table` still reports the column as not indexed (`"NO"`). -/
theorem c8_index_flag_unset :
    (create_index c8State "t" ["c"]).err = none ∧
    ((get_table (create_index c8State "t" ["c"]).state.db "t").getD
        ⟨"", [], []⟩).cols.map ColMeta.index = [false] ∧
    desc_table (create_index c8State "t" ["c"]).state "t"
      = Except.ok [["c", "INT", "NO"]] := by
  refine ⟨by decide, by decide, ?_⟩
  rfl

/-- C9 is contradicted by the code: `drop_index` on an identity with no
registered handle does not fail with a handle-not-found condition before
acting — `ihs_[index_name]` default-constructs a null handle, which is
then passed to `close_index` (recorded here as a close of the `none`
handle), the physical destroy is attempted, and only afterwards does the
call fail, with `IndexNotFoundError` from the catalog lookup. -/
theorem c9_drop_index_null_handle :
    (drop_index_names c9State "t" ["c"]).err
      = some (SmError.indexNotFound "t" ["c"]) ∧
    (drop_index_names c9State "t" ["c"]).state.trace
      = [Effect.closedIdxFile none,
         Effect.destroyedIdxFile (get_index_name "t" ["c"])] := by
  refine ⟨by decide, by decide⟩

/-- When the database directory exists, `open_db` leaves the process in
that directory: the `chdir` at the top is never undone, whatever happens
afterwards (even a swallowed mid-load failure). -/
lemma open_db_cwd (s : SmState) (name : String) (hd : is_dir s name = true) :
    (open_db s name).state.cwd = s.cwd ++ [name] := by
  simp only [open_db]
  rw [if_neg (by simp [hd])]
  split
  next s3 hloop =>
    have hc := openTabLoop_cwd _ _ s3 (Or.inl hloop)
    dsimp only
    rw [hc]
    split <;> rfl
  next s3 hloop =>
    have hc := openTabLoop_cwd _ _ s3 (Or.inr hloop)
    dsimp only
    rw [hc]
    split <;> rfl

/-- None of the table/index catalog operations changes the working
directory. -/
lemma applyOp_cwd (s : SmState) (op : CatalogOp) :
    (applyOp s op).state.cwd = s.cwd := by
  cases op with
  | createTable t d =>
    show (create_table s t d).state.cwd = s.cwd
    cases hbt : is_table s.db t with
    | true =>
      simp only [create_table]
      rw [if_pos hbt]
    | false =>
      rw [create_table_ok s t d hbt]
  | dropTable t =>
    show (drop_table s t).state.cwd = s.cwd
    cases htab : lookupKey s.db.tabs t with
    | none =>
      have hbt : is_table s.db t = false := (is_table_false_iff _ _).mpr htab
      simp only [drop_table]
      rw [if_neg (by simp [hbt])]
    | some tm =>
      obtain ⟨-, -, -, -, -, e5, -⟩ := drop_table_ok s t tm htab
      exact e5
  | createIndex t ns =>
    show (create_index s t ns).state.cwd = s.cwd
    by_cases hni : get_index_name t ns ∈ s.indexFiles
    · simp only [create_index]
      rw [if_pos hni]
    · cases hres : resolveCols s.db t ns with
      | error e =>
        simp only [create_index, hres]
        rw [if_neg hni]
      | ok cs =>
        rw [create_index_ok s t ns cs hni hres]
  | dropIndexByNames t ns =>
    show (drop_index_names s t ns).state.cwd = s.cwd
    cases htab : lookupKey s.db.tabs t with
    | none => simp only [drop_index_names, get_table, htab]
    | some tm =>
      cases hmeta : get_index_meta tm ns with
      | none => simp only [drop_index_names, get_table, htab, hmeta]
      | some im => rw [drop_index_names_ok s t ns tm im htab hmeta]
  | dropIndexByCols t cs =>
    show (drop_index_cols s t cs).state.cwd = s.cwd
    rw [drop_index_cols_eq]
    cases htab : lookupKey s.db.tabs t with
    | none => simp only [drop_index_names, get_table, htab]
    | some tm =>
      cases hmeta : get_index_meta tm (cs.map ColMeta.name) with
      | none => simp only [drop_index_names, get_table, htab, hmeta]
      | some im => rw [drop_index_names_ok s t (cs.map ColMeta.name) tm im htab hmeta]

/-- C10: a successful `open_db` (existing directory) moves the working
directory into the database directory; `close_db` and every catalog
operation leave the working directory unchanged (so after `close_db` the
process is still inside the closed database's directory), `flush_meta`
and `close_db` write the metadata file at a path resolved against the
current working directory, and `create_db` alone restores the previous
directory before returning. -/
theorem c10_working_directory (s : SmState) (name : String) :
    (is_dir s name = true → (open_db s name).state.cwd = s.cwd ++ [name]) ∧
    (close_db s).cwd = s.cwd ∧
    (close_db s).metaDisk = setKey s.metaDisk (s.cwd ++ [DB_META_NAME]) s.db ∧
    (flush_meta s).metaDisk = setKey s.metaDisk (s.cwd ++ [DB_META_NAME]) s.db ∧
    (create_db s name).state.cwd = s.cwd ∧
    (∀ op : CatalogOp, (applyOp s op).state.cwd = s.cwd) := by
  refine ⟨fun hd => open_db_cwd s name hd, rfl, rfl, rfl, ?_, applyOp_cwd s⟩
  by_cases hd : is_dir s name
  · simp only [create_db]
    rw [if_pos hd]
  · simp only [create_db]
    rw [if_neg hd]

theorem c10_working_directory_witness :
    is_dir c10State "db1" = true ∧
    (open_db c10State "db1").state.cwd = c10State.cwd ++ ["db1"] ∧
    (close_db c10State).cwd = c10State.cwd := by
  have hd : is_dir c10State "db1" = true := by decide
  have hc := c10_working_directory c10State "db1"
  exact ⟨hd, hc.1 hd, hc.2.1⟩
